import Mathlib

/-!
Verification development for the babelfish language-code library
(`src/babelfish/language.py`).  Python strings are embedded as `List Char`,
the ISO code tables as finite lists bundled in a `Tables` structure, and the
converter registry as an explicit `RegistryState` threaded through the
operations.  Fallible Python code (raising `ValueError`,
`LanguageConvertError`, `LanguageReverseError`, `KeyError`,
`AttributeError`) is embedded with `Except Err`.
-/

namespace Babelfish

/-- Characters of a Python string. -/
abbrev Str := List Char

/-- Characters of a Lean string literal, used for concrete codes. -/
def chars (s : String) : Str := s.data

/-- Python `s.lower()` (ASCII, as used for language codes). -/
def pyLower (s : Str) : Str := s.map Char.toLower

/-- Python `s.upper()` (ASCII, as used for country codes). -/
def pyUpper (s : Str) : Str := s.map Char.toUpper

/-- Python `s.capitalize()`: first character uppercased, the rest lowercased. -/
def pyCapitalize : Str → Str
  | [] => []
  | c :: cs => c.toUpper :: cs.map Char.toLower

/-- Python `s.split('-')`: split on every dash, keeping empty pieces; the
result is always nonempty. -/
def splitOnDash : Str → List Str
  | [] => [[]]
  | c :: rest =>
    if c = '-' then [] :: splitOnDash rest
    else
      match splitOnDash rest with
      | [] => [[c]]
      | a :: as => (c :: a) :: as

/-- Join subtags with dashes, the inverse of `splitOnDash` on dash-free
subtags. -/
def joinDash : List Str → Str
  | [] => []
  | [s] => s
  | s :: rest => s ++ '-' :: joinDash rest

/-- Error kinds raised by the Python code: `ValueError` for an invalid
language/country/script code, `LanguageConvertError`, `LanguageReverseError`,
`KeyError` from converter lookup, `AttributeError` from `__getattr__`, the
IETF format `ValueError` carrying the unmatched subtags, and the registry
`ValueError`s for duplicate registration and unregistering an unknown name. -/
inductive Err where
  | invalidLanguage (code : Str)
  | invalidCountry (code : Str)
  | invalidScript (code : Str)
  | convertError (alpha3 : Str) (country : Option Str) (script : Option Str)
  | reverseError (code : Str)
  | keyError (name : Str)
  | attributeError (name : Str)
  | ietfFormat (remaining : List Str)
  | duplicateConverter (name : Str)
  | noSuchConverter (name : Str)
  deriving DecidableEq

/-- The static code tables.  `languages` embeds `LANGUAGES` (the set of valid
alpha3 codes loaded from `iso-639-3.tab`); `countries` and `scripts` embed
the closed country and script tables; `alpha2tab` embeds the
alpha3-to-alpha2 pairs of the language matrix, from which the `alpha2`
converter builds its forward and reverse dictionaries. -/
structure Tables where
  languages : List Str
  countries : List Str
  scripts : List Str
  alpha2tab : List (Str × Str)

/-- Forward alpha2 dictionary lookup: the foreign alpha2 code of an alpha3
code, when the matrix row has one. -/
def Tables.alpha2of (T : Tables) (a3 : Str) : Option Str :=
  (T.alpha2tab.find? (fun p => p.1 = a3)).map Prod.snd

/-- Reverse alpha2 dictionary lookup: the alpha3 code owning an alpha2
code. -/
def Tables.alpha2rev (T : Tables) (a2 : Str) : Option Str :=
  (T.alpha2tab.find? (fun p => p.2 = a2)).map Prod.fst

/-- A `Language` value: the `alpha3` code plus an optional country and an
optional script.  `Country` and `Script` are equality-by-code value objects,
so each is embedded as its validated code string. -/
structure Language where
  alpha3 : Str
  country : Option Str
  script : Option Str
  deriving DecidableEq

/-- Modelled from the spec: `Country` construction (src lacks `country.py`) —
a 2-letter code validated against the closed country table, `ValueError`
otherwise. -/
def Country.make (T : Tables) (code : Str) : Except Err Str :=
  if code ∈ T.countries then .ok code else .error (.invalidCountry code)

/-- Modelled from the spec: `Script` construction (src lacks `script.py`) —
a 4-letter code in capitalized form validated against the closed script
table, `ValueError` otherwise. -/
def Script.make (T : Tables) (code : Str) : Except Err Str :=
  if code ∈ T.scripts then .ok code else .error (.invalidScript code)

/-- `Language.__init__`: if `unknown` is given and `language` is not a valid
code, substitute `unknown`; the result must be a valid language key or a
`ValueError` is raised; the optional country and script codes are validated
by the `Country` and `Script` constructors. -/
def Language.make (T : Tables) (language : Str) (country : Option Str)
    (script : Option Str) (unknown : Option Str) : Except Err Language :=
  let language :=
    match unknown with
    | some u => if language ∈ T.languages then language else u
    | none => language
  if language ∈ T.languages then
    match country with
    | none =>
      match script with
      | none => .ok ⟨language, none, none⟩
      | some s =>
        match Script.make T s with
        | .ok sc => .ok ⟨language, none, some sc⟩
        | .error e => .error e
    | some c =>
      match Country.make T c with
      | .error e => .error e
      | .ok cc =>
        match script with
        | none => .ok ⟨language, some cc, none⟩
        | some s =>
          match Script.make T s with
          | .ok sc => .ok ⟨language, some cc, some sc⟩
          | .error e => .error e
  else .error (.invalidLanguage language)

/-- A registered language converter: `convert` is the forward conversion of
a canonical triple to a foreign code; `reverse`, present exactly when the
converter is a `LanguageReverseConverter`, maps a foreign code back to a
triple (the tuple splatted into the `Language` constructor). -/
structure Converter where
  convert : Str → Option Str → Option Str → Except Err Str
  reverse : Option (Str → Except Err (Str × Option Str × Option Str))

/-- Modelled from the spec: the `alpha2` scheme's converter (src lacks
`converters/alpha2.py`) — forward conversion returns the alpha2 code of the
alpha3 from the matrix, raising `LanguageConvertError` when the row has no
alpha2; reverse conversion returns the owning alpha3 (country and script
absent), raising `LanguageReverseError` when the alpha2 code is unmapped. -/
def alpha2Converter (T : Tables) : Converter where
  convert := fun alpha3 country script =>
    match T.alpha2of alpha3 with
    | some a2 => .ok a2
    | none => .error (.convertError alpha3 country script)
  reverse := some (fun code =>
    match T.alpha2rev code with
    | some a3 => .ok (a3, none, none)
    | none => .error (.reverseError code))

/-- `Language.fromalpha2`, the reverse constructor attached for the `alpha2`
scheme: reverse-convert the code and construct a `Language` from the
resulting triple. -/
def Language.fromalpha2 (T : Tables) (code : Str) : Except Err Language :=
  match (alpha2Converter T).reverse with
  | none => .error (.attributeError (chars "reverse"))
  | some rev =>
    match rev code with
    | .error e => .error e
    | .ok r => Language.make T r.1 r.2.1 r.2.2 none

/-- The `while subtags:` loop of `Language.fromietf`: consume subtags left
to right; a 2-character subtag is uppercased and set as the country, any
other subtag is capitalized and set as the script; once the script is set,
any remaining subtags raise the IETF format `ValueError`, otherwise the loop
breaks. -/
def ietfLoop (T : Tables) (language : Language) : List Str → Except Err Language
  | [] => .ok language
  | subtag :: rest =>
    if subtag.length = 2 then
      match Country.make T (pyUpper subtag) with
      | .error e => .error e
      | .ok cc =>
        let language := { language with country := some cc }
        match language.script with
        | some _ => if rest ≠ [] then .error (.ietfFormat rest) else .ok language
        | none => ietfLoop T language rest
    else
      match Script.make T (pyCapitalize subtag) with
      | .error e => .error e
      | .ok sc =>
        let language := { language with script := some sc }
        if rest ≠ [] then .error (.ietfFormat rest) else .ok language

/-- `Language.fromietf`: split the tag on dashes, lowercase the first subtag
and resolve it through the alpha2 reverse conversion when it has length 2 or
directly as an alpha3 code otherwise, then consume the remaining subtags
with the country/script loop. -/
def Language.fromietf (T : Tables) (ietf : Str) : Except Err Language :=
  let subtags := splitOnDash ietf
  let language_subtag := pyLower (subtags.headD [])
  match (if language_subtag.length = 2 then Language.fromalpha2 T language_subtag
         else Language.make T language_subtag none none none) with
  | .error e => .error e
  | .ok language => ietfLoop T language subtags.tail

/-- `Language.__str__`: the `alpha2` forward conversion of the alpha3 when
it succeeds (the `alpha2` attribute), the raw alpha3 on
`LanguageConvertError`; then `-country` if a country is set, then `-script`
if a script is set. -/
def Language.toStr (T : Tables) (L : Language) : Str :=
  let s :=
    match (alpha2Converter T).convert L.alpha3 L.country L.script with
    | .ok a2 => a2
    | .error _ => L.alpha3
  let s := match L.country with
    | none => s
    | some c => s ++ '-' :: c
  match L.script with
  | none => s
  | some sc => s ++ '-' :: sc

/-- `Language.__hash__` is `hash(str(self))`: the hash of a `Language` is
the Python string hash of its serialized textual form.  The built-in string
hash is abstracted as a parameter `h`. -/
def languageHash (T : Tables) (h : Str → Nat) (L : Language) : Nat :=
  h (Language.toStr T L)

/-- The converter registry (`LANGUAGE_CONVERTERS`) together with the set of
`from<name>` reverse constructors currently attached to the `Language`
class: `fromAttrs` holds exactly the names `n` for which `Language` has the
attribute `from` ++ `n`. -/
structure RegistryState where
  converters : List (Str × Converter)
  fromAttrs : List Str

/-- Dictionary lookup in `LANGUAGE_CONVERTERS`. -/
def lookupConverter (s : RegistryState) (name : Str) : Option Converter :=
  (s.converters.find? (fun p => p.1 = name)).map Prod.snd

/-- `register_language_converter`: `ValueError` when the name is already
bound, otherwise store the instantiated converter and, when it is a
`LanguageReverseConverter`, attach the `from` ++ name constructor to
`Language`. -/
def register_language_converter (s : RegistryState) (name : Str)
    (conv : Converter) : Except Err RegistryState :=
  if name ∈ s.converters.map Prod.fst then .error (.duplicateConverter name)
  else .ok { converters := s.converters ++ [(name, conv)],
             fromAttrs := if conv.reverse.isSome then name :: s.fromAttrs
                          else s.fromAttrs }

/-- `unregister_language_converter`: `ValueError` when the name is unbound,
otherwise delete the `from` ++ name constructor when the converter is a
`LanguageReverseConverter` and remove the binding. -/
def unregister_language_converter (s : RegistryState) (name : Str) :
    Except Err RegistryState :=
  match lookupConverter s name with
  | none => .error (.noSuchConverter name)
  | some conv =>
    .ok { converters := s.converters.filter (fun p => ¬(p.1 = name)),
          fromAttrs := if conv.reverse.isSome then s.fromAttrs.erase name
                       else s.fromAttrs }

/-- `get_language_converter`: return the converter bound to `name`, or
discover it from the `babelfish.language_converters` entry points (the
discovery collaborator `disc`), registering it before returning; `KeyError`
when neither succeeds. -/
def get_language_converter (disc : Str → Option Converter) (s : RegistryState)
    (name : Str) : Except Err (Converter × RegistryState) :=
  match lookupConverter s name with
  | some c => .ok (c, s)
  | none =>
    match disc name with
    | some conv =>
      match register_language_converter s name conv with
      | .ok s' => .ok (conv, s')
      | .error e => .error e
    | none => .error (.keyError name)

/-- `Language.__getattr__`: delegate the attribute name to
`get_language_converter` and call the converter's `convert` on the triple;
`KeyError` (name unregistered and undiscoverable) becomes `AttributeError`,
while any conversion failure is surfaced unchanged. -/
def Language.getattr (disc : Str → Option Converter) (s : RegistryState)
    (L : Language) (name : Str) : Except Err Str :=
  match get_language_converter disc s name with
  | .ok (c, _) => c.convert L.alpha3 L.country L.script
  | .error (.keyError _) => .error (.attributeError name)
  | .error e => .error e

/-- Whether the converter currently bound to `n` is a
`LanguageReverseConverter`. -/
def reverseCapableAt (s : RegistryState) (n : Str) : Bool :=
  match lookupConverter s n with
  | some c => c.reverse.isSome
  | none => false

/-- The registry/class consistency invariant: converter names are unique
(a Python dict), attached constructor names are unique (Python attributes),
every attached `from` ++ n constructor corresponds to a currently bound
reverse-capable converter, and every bound reverse-capable converter has its
constructor attached. -/
abbrev RegistryState.invariant (s : RegistryState) : Prop :=
  (s.converters.map Prod.fst).Nodup ∧ s.fromAttrs.Nodup ∧
  (∀ n ∈ s.fromAttrs, reverseCapableAt s n = true) ∧
  (∀ p ∈ s.converters, p.2.reverse.isSome = true → p.1 ∈ s.fromAttrs)

/-- Well-formedness of the static tables, true of the shipped ISO data:
alpha2 rows have unique alpha3 keys and unique alpha2 values, each mapped
alpha3 is a valid language key and each alpha2 value is a dash-free
lowercase 2-letter code; country codes are dash-free uppercase 2-letter
codes; script codes are dash-free capitalized 4-letter codes (in
particular not of length 2). -/
abbrev Tables.WF (T : Tables) : Prop :=
  (T.alpha2tab.map Prod.fst).Nodup ∧
  (T.alpha2tab.map Prod.snd).Nodup ∧
  (∀ p ∈ T.alpha2tab,
    p.1 ∈ T.languages ∧ p.2.length = 2 ∧ pyLower p.2 = p.2 ∧ '-' ∉ p.2) ∧
  (∀ c ∈ T.countries, c.length = 2 ∧ pyUpper c = c ∧ '-' ∉ c) ∧
  (∀ s ∈ T.scripts, s.length ≠ 2 ∧ pyCapitalize s = s ∧ '-' ∉ s)

/-- A concrete fragment of the shipped ISO tables (rows of `iso-639-3.tab`
and the country/script tables), used to evaluate the operations on concrete
inputs. -/
def T0 : Tables where
  languages := [chars "fra", chars "eng", chars "por", chars "srp",
                chars "und", chars "ace", chars "bel"]
  countries := [chars "FR", chars "US", chars "BR", chars "GB", chars "ME",
                chars "SR"]
  scripts := [chars "Latn", chars "Cyrl", chars "Hira"]
  alpha2tab := [(chars "fra", chars "fr"), (chars "eng", chars "en"),
                (chars "por", chars "pt"), (chars "srp", chars "sr"),
                (chars "bel", chars "be")]

/-- The code actually validated by `Language.__init__`: the requested code,
or the `unknown` fallback when one is given and the requested code is not a
valid language key. -/
def substituteFallback (T : Tables) (code : Str) (unknown : Option Str) : Str :=
  match unknown with
  | some u => if code ∈ T.languages then code else u
  | none => code

/-- A registry state holding only the `alpha2` converter, with its
`fromalpha2` constructor attached. -/
def regS0 : RegistryState :=
  ⟨[(chars "alpha2", alpha2Converter T0)], [chars "alpha2"]⟩

/-- A discovery collaborator with no entry points. -/
def disc0 : Str → Option Converter := fun _ => none

/-- Splitting a dash-free string yields the single piece. -/
theorem splitOnDash_no_dash (s : Str) (h : '-' ∉ s) : splitOnDash s = [s] := by
  induction s with
  | nil => rfl
  | cons c rest ih =>
    have hc : ¬c = '-' := fun hc => h (by simp [hc])
    have hr : '-' ∉ rest := fun hm => h (List.mem_cons_of_mem _ hm)
    simp [splitOnDash, hc, ih hr]

/-- Splitting past a dash-free prefix peels it off. -/
theorem splitOnDash_append (a b : Str) (h : '-' ∉ a) :
    splitOnDash (a ++ '-' :: b) = a :: splitOnDash b := by
  induction a with
  | nil => simp [splitOnDash]
  | cons c a' ih =>
    have hc : ¬c = '-' := fun hc => h (by simp [hc])
    have ha : '-' ∉ a' := fun hm => h (List.mem_cons_of_mem _ hm)
    simp [splitOnDash, hc, ih ha]

/-- `splitOnDash` recovers the subtags joined by `joinDash` when each
subtag is dash-free. -/
theorem splitOnDash_joinDash (parts : List Str) (hne : parts ≠ [])
    (h : ∀ s ∈ parts, '-' ∉ s) :
    splitOnDash (joinDash parts) = parts := by
  induction parts with
  | nil => exact absurd rfl hne
  | cons s rest ih =>
    cases rest with
    | nil => exact splitOnDash_no_dash s (h s (by simp))
    | cons t r =>
      have hs : '-' ∉ s := h s (by simp)
      have hrest : ∀ x ∈ t :: r, '-' ∉ x := fun x hx => h x (by simp [hx])
      calc splitOnDash (joinDash (s :: t :: r))
          = splitOnDash (s ++ '-' :: joinDash (t :: r)) := by
            rw [joinDash]
            exact List.cons_ne_nil t r
        _ = s :: splitOnDash (joinDash (t :: r)) := splitOnDash_append _ _ hs
        _ = s :: t :: r := by rw [ih (List.cons_ne_nil t r) hrest]

/-- A successful forward alpha2 lookup comes from a row of the matrix. -/
theorem alpha2of_mem (T : Tables) (a3 a2 : Str)
    (h : T.alpha2of a3 = some a2) : (a3, a2) ∈ T.alpha2tab := by
  unfold Tables.alpha2of at h
  cases hf : T.alpha2tab.find? (fun p => p.1 = a3) with
  | none => rw [hf] at h; simp at h
  | some p =>
    rw [hf] at h
    simp at h
    have hp : p.1 = a3 := by
      have := List.find?_some hf
      simpa using this
    have hmem := List.mem_of_find?_eq_some hf
    have : p = (a3, a2) := by
      cases p; simp_all
    rw [this] at hmem; exact hmem

/-- In a pair list with pairwise-distinct second components, `find?` on the
second component of a member returns that member. -/
theorem find?_snd_eq_of_mem (l : List (Str × Str))
    (hnd : (l.map Prod.snd).Nodup) (a3 a2 : Str) (hmem : (a3, a2) ∈ l) :
    l.find? (fun p => p.2 = a2) = some (a3, a2) := by
  induction l with
  | nil => simp at hmem
  | cons p t ih =>
    rcases List.mem_cons.1 hmem with hp | ht
    · rw [← hp]
      have : (decide (p.2 = p.2)) = true := by simp
      simp [List.find?, ← hp] at this ⊢
    · have hsnd : ¬p.2 = a2 := by
        intro he
        have : a2 ∈ t.map Prod.snd := by
          exact List.mem_map_of_mem Prod.snd ht
        rw [List.map_cons] at hnd
        have := (List.nodup_cons.1 hnd).1
        rw [he] at this
        exact this ‹a2 ∈ t.map Prod.snd›
      have hnd' : (t.map Prod.snd).Nodup := by
        rw [List.map_cons] at hnd
        exact (List.nodup_cons.1 hnd).2
      simp [List.find?, hsnd]
      exact ih hnd' ht

/-- Under table well-formedness the reverse alpha2 lookup inverts the
forward one. -/
theorem alpha2rev_of_alpha2of (T : Tables) (hwf : T.WF) (a3 a2 : Str)
    (h : T.alpha2of a3 = some a2) : T.alpha2rev a2 = some a3 := by
  have hmem := alpha2of_mem T a3 a2 h
  unfold Tables.alpha2rev
  rw [find?_snd_eq_of_mem T.alpha2tab hwf.2.1 a3 a2 hmem]
  rfl

/-- Constructing a `Language` from a valid bare alpha3 code succeeds. -/
theorem make_simple (T : Tables) (lang : Str) (h : lang ∈ T.languages) :
    Language.make T lang none none none = .ok ⟨lang, none, none⟩ := by
  simp [Language.make, h]

/-- `fromalpha2` on a reverse-mapped code builds the bare language. -/
theorem fromalpha2_eq (T : Tables) (code a3 : Str)
    (hrev : T.alpha2rev code = some a3) (hl : a3 ∈ T.languages) :
    Language.fromalpha2 T code = .ok ⟨a3, none, none⟩ := by
  simp [Language.fromalpha2, alpha2Converter, hrev, make_simple T a3 hl]

/-- The subtag loop on a valid country subtag sets the country and
continues when no script is set yet. -/
theorem ietfLoop_country (T : Tables) (L : Language) (c : Str)
    (rest : List Str) (h2 : c.length = 2) (hv : pyUpper c ∈ T.countries)
    (hs : L.script = none) :
    ietfLoop T L (c :: rest) =
      ietfLoop T { L with country := some (pyUpper c) } rest := by
  simp [ietfLoop, h2, Country.make, hv, hs]

/-- The subtag loop on a final valid script subtag sets the script and
stops. -/
theorem ietfLoop_script_last (T : Tables) (L : Language) (s : Str)
    (h2 : s.length ≠ 2) (hv : pyCapitalize s ∈ T.scripts) :
    ietfLoop T L [s] = .ok { L with script := some (pyCapitalize s) } := by
  simp [ietfLoop, h2, Script.make, hv]

/-- The subtag loop on a valid script subtag followed by anything raises
the IETF format error carrying the unmatched remainder. -/
theorem ietfLoop_script_more (T : Tables) (L : Language) (s : Str)
    (rest : List Str) (h2 : s.length ≠ 2) (hv : pyCapitalize s ∈ T.scripts)
    (hne : rest ≠ []) :
    ietfLoop T L (s :: rest) = .error (.ietfFormat rest) := by
  simp [ietfLoop, h2, Script.make, hv, hne]

/-- `fromietf` on joined dash-free subtags: resolve the lowercased head as
alpha2 or alpha3 and run the loop on the remaining subtags. -/
theorem fromietf_join (T : Tables) (l : Str) (rest : List Str)
    (hdl : '-' ∉ l) (hdr : ∀ s ∈ rest, '-' ∉ s) :
    Language.fromietf T (joinDash (l :: rest)) =
      match (if (pyLower l).length = 2 then Language.fromalpha2 T (pyLower l)
             else Language.make T (pyLower l) none none none) with
      | .error e => .error e
      | .ok language => ietfLoop T language rest := by
  have hsplit : splitOnDash (joinDash (l :: rest)) = l :: rest :=
    splitOnDash_joinDash (l :: rest) (List.cons_ne_nil l rest)
      (by intro s hs; rcases List.mem_cons.1 hs with h | h
          · rw [h]; exact hdl
          · exact hdr s h)
  simp [Language.fromietf, hsplit]

/-- C1: for every Language whose alpha3 code has an alpha2 mapping (fields
valid per the construction invariant, tables well-formed as shipped), and
for every combination of country present/absent and script present/absent,
`Language.fromietf` applied to `Language.toStr` returns the language
exactly. -/
theorem c1_fromietf_roundtrip (T : Tables) (hwf : T.WF) (L : Language)
    (hl : L.alpha3 ∈ T.languages)
    (ha : (T.alpha2of L.alpha3).isSome = true)
    (hc : ∀ c, L.country = some c → c ∈ T.countries)
    (hs : ∀ s, L.script = some s → s ∈ T.scripts) :
    Language.fromietf T (Language.toStr T L) = .ok L := by
  rcases Option.isSome_iff_exists.1 ha with ⟨a2, ha2⟩
  have hmem := alpha2of_mem T L.alpha3 a2 ha2
  obtain ⟨-, hlen2, hlow, hndash⟩ := hwf.2.2.1 _ hmem
  have hrev := alpha2rev_of_alpha2of T hwf _ _ ha2
  obtain ⟨a3, co, sc⟩ := L
  cases co with
  | none =>
    cases sc with
    | none =>
      have htostr : Language.toStr T ⟨a3, none, none⟩ = a2 := by
        simp [Language.toStr, alpha2Converter, ha2]
      rw [htostr]
      simp [Language.fromietf, splitOnDash_no_dash a2 hndash, hlow, hlen2,
            fromalpha2_eq T a2 a3 hrev hl, ietfLoop]
    | some scr =>
      have hsv : scr ∈ T.scripts := hs scr rfl
      obtain ⟨hslen, hscap, hsd⟩ := hwf.2.2.2.2 scr hsv
      have htostr : Language.toStr T ⟨a3, none, some scr⟩ = a2 ++ '-' :: scr := by
        simp [Language.toStr, alpha2Converter, ha2]
      have hsplit : splitOnDash (a2 ++ '-' :: scr) = [a2, scr] := by
        rw [splitOnDash_append a2 scr hndash, splitOnDash_no_dash scr hsd]
      have h1 : Language.fromietf T (a2 ++ '-' :: scr) =
          ietfLoop T ⟨a3, none, none⟩ [scr] := by
        simp [Language.fromietf, hsplit, hlow, hlen2,
              fromalpha2_eq T a2 a3 hrev hl]
      rw [htostr, h1,
          ietfLoop_script_last T _ scr hslen (by rw [hscap]; exact hsv)]
      simp [hscap]
  | some c =>
    have hcv : c ∈ T.countries := hc c rfl
    obtain ⟨hcl, hcu, hcd⟩ := hwf.2.2.2.1 c hcv
    cases sc with
    | none =>
      have htostr : Language.toStr T ⟨a3, some c, none⟩ = a2 ++ '-' :: c := by
        simp [Language.toStr, alpha2Converter, ha2]
      have hsplit : splitOnDash (a2 ++ '-' :: c) = [a2, c] := by
        rw [splitOnDash_append a2 c hndash, splitOnDash_no_dash c hcd]
      have h1 : Language.fromietf T (a2 ++ '-' :: c) =
          ietfLoop T ⟨a3, none, none⟩ [c] := by
        simp [Language.fromietf, hsplit, hlow, hlen2,
              fromalpha2_eq T a2 a3 hrev hl]
      rw [htostr, h1,
          ietfLoop_country T _ c [] hcl (by rw [hcu]; exact hcv) rfl,
          ietfLoop]
      simp [hcu]
    | some scr =>
      have hsv : scr ∈ T.scripts := hs scr rfl
      obtain ⟨hslen, hscap, hsd⟩ := hwf.2.2.2.2 scr hsv
      have htostr : Language.toStr T ⟨a3, some c, some scr⟩ =
          a2 ++ '-' :: (c ++ '-' :: scr) := by
        simp [Language.toStr, alpha2Converter, ha2]
      have hsplit : splitOnDash (a2 ++ '-' :: (c ++ '-' :: scr)) =
          [a2, c, scr] := by
        rw [splitOnDash_append a2 _ hndash, splitOnDash_append c scr hcd,
            splitOnDash_no_dash scr hsd]
      have h1 : Language.fromietf T (a2 ++ '-' :: (c ++ '-' :: scr)) =
          ietfLoop T ⟨a3, none, none⟩ [c, scr] := by
        simp [Language.fromietf, hsplit, hlow, hlen2,
              fromalpha2_eq T a2 a3 hrev hl]
      rw [htostr, h1,
          ietfLoop_country T _ c [scr] hcl (by rw [hcu]; exact hcv) rfl,
          ietfLoop_script_last T _ scr hslen (by rw [hscap]; exact hsv)]
      simp [hcu, hscap]

/-- Witness for C1 at the concrete tables and the language eng-US-Latn. -/
theorem c1_fromietf_roundtrip_witness :
    T0.WF ∧
    Language.fromietf T0
        (Language.toStr T0 ⟨chars "eng", some (chars "US"), some (chars "Latn")⟩) =
      .ok ⟨chars "eng", some (chars "US"), some (chars "Latn")⟩ :=
  ⟨by decide,
   c1_fromietf_roundtrip T0 (by decide)
     ⟨chars "eng", some (chars "US"), some (chars "Latn")⟩
     (by decide) (by decide)
     (fun c hc => by injection hc with h; rw [← h]; decide)
     (fun s hs => by injection hs with h; rw [← h]; decide)⟩

/-- C3: for every Language, `toStr` uses the alpha2 forward conversion of
the alpha3 as the language segment when it succeeds and falls back to the
raw alpha3 on convert failure, then appends dash-country if set and after
that dash-script if set, in exactly that order. -/
theorem c3_str_serialization (T : Tables) (L : Language) :
    (∃ a2, (alpha2Converter T).convert L.alpha3 L.country L.script = .ok a2 ∧
      Language.toStr T L =
        a2 ++ (match L.country with | none => [] | some c => '-' :: c)
           ++ (match L.script with | none => [] | some s => '-' :: s)) ∨
    ((alpha2Converter T).convert L.alpha3 L.country L.script =
        .error (.convertError L.alpha3 L.country L.script) ∧
      Language.toStr T L =
        L.alpha3 ++ (match L.country with | none => [] | some c => '-' :: c)
                 ++ (match L.script with | none => [] | some s => '-' :: s)) := by
  obtain ⟨a3, co, sc⟩ := L
  cases ha : T.alpha2of a3 with
  | some a2 =>
    left
    refine ⟨a2, by simp [alpha2Converter, ha], ?_⟩
    cases co <;> cases sc <;> simp [Language.toStr, alpha2Converter, ha]
  | none =>
    right
    refine ⟨by simp [alpha2Converter, ha], ?_⟩
    cases co <;> cases sc <;> simp [Language.toStr, alpha2Converter, ha]

/-- C4: `fromietf` resolves a 2-character first subtag through the alpha2
reverse conversion and any other first subtag directly as a raw alpha3 code
with no fallback; concretely, `fromietf 'fr-Latn'` yields alpha3 `fra`,
no country and script `Latn`. -/
theorem c4_fromietf_dispatch (T : Tables) (ietf : Str) :
    ((pyLower ((splitOnDash ietf).headD [])).length = 2 →
      Language.fromietf T ietf =
        match Language.fromalpha2 T (pyLower ((splitOnDash ietf).headD [])) with
        | .error e => .error e
        | .ok language => ietfLoop T language (splitOnDash ietf).tail) ∧
    ((pyLower ((splitOnDash ietf).headD [])).length ≠ 2 →
      Language.fromietf T ietf =
        match Language.make T (pyLower ((splitOnDash ietf).headD []))
            none none none with
        | .error e => .error e
        | .ok language => ietfLoop T language (splitOnDash ietf).tail) ∧
    Language.fromietf T0 (chars "fr-Latn") =
      .ok ⟨chars "fra", none, some (chars "Latn")⟩ := by
  refine ⟨fun h => ?_, fun h => ?_, by rfl⟩
  · rw [List.headD_eq_head?] at h
    simp [Language.fromietf, h]
  · rw [List.headD_eq_head?] at h
    simp [Language.fromietf, h]

/-- Witness for C4 at the alpha2-resolved tag fr-Latn. -/
theorem c4_fromietf_dispatch_witness :
    Language.fromietf T0 (chars "fr-Latn") =
      match Language.fromalpha2 T0
          (pyLower ((splitOnDash (chars "fr-Latn")).headD [])) with
      | .error e => .error e
      | .ok language => ietfLoop T0 language (splitOnDash (chars "fr-Latn")).tail :=
  (c4_fromietf_dispatch T0 (chars "fr-Latn")).1 (by decide)

/-- C6: for every code not in the language-key set and every valid
fallback, construction with the fallback equals construction from the
fallback; and construction (bare, no country/script) fails with the
invalid-code error exactly when the code after fallback substitution is
not a key of the language table. -/
theorem c6_fallback (T : Tables) (c f : Str) (hc : c ∉ T.languages)
    (hf : f ∈ T.languages) :
    Language.make T c none none (some f) = Language.make T f none none none ∧
    (∀ code unknown,
      Language.make T code none none unknown =
          .error (.invalidLanguage (substituteFallback T code unknown)) ↔
        substituteFallback T code unknown ∉ T.languages) := by
  constructor
  · simp [Language.make, hc, hf]
  · intro code unknown
    cases unknown with
    | none =>
      by_cases h : code ∈ T.languages <;>
        simp [Language.make, substituteFallback, h]
    | some u =>
      by_cases h : code ∈ T.languages
      · simp [Language.make, substituteFallback, h]
      · by_cases hu : u ∈ T.languages <;>
          simp [Language.make, substituteFallback, h, hu]

/-- Witness for C6 at the invalid code zzz with fallback und. -/
theorem c6_fallback_witness :
    Language.make T0 (chars "zzz") none none (some (chars "und")) =
      Language.make T0 (chars "und") none none none :=
  (c6_fallback T0 (chars "zzz") (chars "und") (by decide) (by decide)).1

/-- C7: the hash of a Language is the string hash of its serialized
textual form, so two Languages that render to the same string hash
identically; in particular the por-BR language hashes as the string
pt-BR. -/
theorem c7_hash (T : Tables) (h : Str → Nat) (L1 L2 : Language)
    (heq : Language.toStr T L1 = Language.toStr T L2) :
    languageHash T h L1 = h (Language.toStr T L1) ∧
    languageHash T h L1 = languageHash T h L2 ∧
    languageHash T0 h ⟨chars "por", some (chars "BR"), none⟩ =
      h (chars "pt-BR") := by
  refine ⟨rfl, ?_, rfl⟩
  simp [languageHash, heq]

/-- Witness for C7 with the length function as the string hash. -/
theorem c7_hash_witness :
    languageHash T0 List.length ⟨chars "fra", none, none⟩ =
      List.length (Language.toStr T0 ⟨chars "fra", none, none⟩) ∧
    languageHash T0 List.length ⟨chars "fra", none, none⟩ =
      languageHash T0 List.length ⟨chars "fra", none, none⟩ ∧
    languageHash T0 List.length ⟨chars "por", some (chars "BR"), none⟩ =
      List.length (chars "pt-BR") :=
  c7_hash T0 List.length ⟨chars "fra", none, none⟩ ⟨chars "fra", none, none⟩ rfl

/-- When a single dash-free subtag parses to a language, joining further
subtags behind it parses by running the loop on them from that language. -/
theorem fromietf_head (T : Tables) (l : Str) (L0 : Language) (hdl : '-' ∉ l)
    (h : Language.fromietf T l = .ok L0) (rest : List Str)
    (hdr : ∀ s ∈ rest, '-' ∉ s) :
    Language.fromietf T (joinDash (l :: rest)) = ietfLoop T L0 rest := by
  have h0 := fromietf_join T l [] hdl (by simp)
  rw [show joinDash [l] = l from rfl] at h0
  rw [h] at h0
  have hj := fromietf_join T l rest hdl hdr
  cases hh : (if (pyLower l).length = 2 then Language.fromalpha2 T (pyLower l)
              else Language.make T (pyLower l) none none none) with
  | error e => rw [hh] at h0; simp at h0
  | ok lang =>
    rw [hh] at h0 hj
    simp [ietfLoop] at h0
    rw [hj, h0]

/-- Running the loop over valid 2-letter country subtags keeps the script
unset and only moves the country, ending in a state with the same alpha3. -/
theorem ietfLoop_countries_then (T : Tables) (L : Language) (mids tail : List Str)
    (hs : L.script = none)
    (hmids : ∀ x ∈ mids, x.length = 2 ∧ pyUpper x ∈ T.countries) :
    ∃ co, ietfLoop T L (mids ++ tail) = ietfLoop T ⟨L.alpha3, co, none⟩ tail := by
  induction mids generalizing L with
  | nil =>
    refine ⟨L.country, ?_⟩
    obtain ⟨a3, lco, lsc⟩ := L
    cases hs
    rfl
  | cons m ms ih =>
    obtain ⟨hm2, hmv⟩ := hmids m (by simp)
    rw [List.cons_append, ietfLoop_country T L m (ms ++ tail) hm2 hmv hs]
    exact ih { L with country := some (pyUpper m) } hs
      (fun x hx => hmids x (by simp [hx]))

/-- C5: `fromietf` requires the script subtag to be last: whenever the tag
is a language subtag, then country subtags, then a valid script subtag
followed by a nonempty remainder, parsing fails with the IETF format error
naming exactly the unconsumed remaining subtags. -/
theorem c5_script_must_be_last (T : Tables) (lang s : Str)
    (mids rest : List Str) (L0 : Language)
    (hdl : '-' ∉ lang) (hdm : ∀ m ∈ mids, '-' ∉ m) (hds : '-' ∉ s)
    (hdr : ∀ x ∈ rest, '-' ∉ x)
    (hhead : Language.fromietf T lang = .ok L0) (hs0 : L0.script = none)
    (hmids : ∀ m ∈ mids, m.length = 2 ∧ pyUpper m ∈ T.countries)
    (hslen : s.length ≠ 2) (hsv : pyCapitalize s ∈ T.scripts)
    (hrest : rest ≠ []) :
    Language.fromietf T (joinDash (lang :: (mids ++ s :: rest))) =
      .error (.ietfFormat rest) := by
  have hall : ∀ x ∈ mids ++ s :: rest, '-' ∉ x := by
    intro x hx
    rcases List.mem_append.1 hx with h | h
    · exact hdm x h
    · rcases List.mem_cons.1 h with h | h
      · rw [h]; exact hds
      · exact hdr x h
  rw [fromietf_head T lang L0 hdl hhead _ hall]
  obtain ⟨co, hloop⟩ := ietfLoop_countries_then T L0 mids (s :: rest) hs0 hmids
  rw [hloop, ietfLoop_script_more T _ s rest hslen hsv hrest]

/-- Witness for C5: fra-Latn-FR fails naming the remainder FR. -/
theorem c5_script_must_be_last_witness :
    Language.fromietf T0 (joinDash [chars "fra", chars "Latn", chars "FR"]) =
      .error (.ietfFormat [chars "FR"]) :=
  c5_script_must_be_last T0 (chars "fra") (chars "Latn") [] [chars "FR"]
    ⟨chars "fra", none, none⟩ (by decide) (by simp) (by decide)
    (by decide) (by rfl) rfl (by simp) (by decide) (by decide) (by decide)

/-- C8: a tag of a valid language subtag followed by two or more valid
2-character country subtags and no script parses successfully, each country
subtag overwriting the previous one, so the result carries the last
country subtag (uppercased). -/
theorem c8_multiple_countries (T : Tables) (lang clast : Str)
    (mids : List Str) (L0 : Language)
    (hdl : '-' ∉ lang) (hdm : ∀ m ∈ mids ++ [clast], '-' ∉ m)
    (hhead : Language.fromietf T lang = .ok L0) (hs0 : L0.script = none)
    (hmids : ∀ m ∈ mids ++ [clast], m.length = 2 ∧ pyUpper m ∈ T.countries)
    (_htwo : mids ≠ []) :
    Language.fromietf T (joinDash (lang :: (mids ++ [clast]))) =
      .ok ⟨L0.alpha3, some (pyUpper clast), none⟩ := by
  rw [fromietf_head T lang L0 hdl hhead _ hdm]
  obtain ⟨co, hloop⟩ := ietfLoop_countries_then T L0 mids [clast] hs0
    (fun x hx => hmids x (List.mem_append.2 (Or.inl hx)))
  obtain ⟨hc2, hcv⟩ := hmids clast (List.mem_append.2 (Or.inr (by simp)))
  rw [hloop, ietfLoop_country T _ clast [] hc2 hcv rfl, ietfLoop]

/-- Witness for C8: fra-FR-US parses to fra with country US. -/
theorem c8_multiple_countries_witness :
    Language.fromietf T0 (joinDash [chars "fra", chars "FR", chars "US"]) =
      .ok ⟨chars "fra", some (pyUpper (chars "US")), none⟩ :=
  c8_multiple_countries T0 (chars "fra") (chars "US") [chars "FR"]
    ⟨chars "fra", none, none⟩ (by decide) (by decide) (by rfl) rfl
    (by decide) (by decide)

/-- C9: attribute-style named conversion delegates to the registry's
converter: for a scheme name bound to a converter, the attribute access
returns exactly the converter's `convert` on (alpha3, country code or none,
script code or none), surfacing any convert failure unchanged; for a name
neither registered nor discoverable it fails with the distinct
`AttributeError`. -/
theorem c9_getattr_delegates (disc : Str → Option Converter)
    (s : RegistryState) (L : Language) (name : Str) :
    (∀ conv, lookupConverter s name = some conv →
      Language.getattr disc s L name =
        conv.convert L.alpha3 L.country L.script) ∧
    (lookupConverter s name = none → disc name = none →
      Language.getattr disc s L name = .error (.attributeError name)) := by
  constructor
  · intro conv h
    simp [Language.getattr, get_language_converter, h]
  · intro h1 h2
    simp [Language.getattr, get_language_converter, h1, h2]

/-- Witness for C9 on a registry holding only the alpha2 converter: the
alpha2 attribute delegates to it, and an unbound undiscoverable name gives
the AttributeError. -/
theorem c9_getattr_delegates_witness :
    Language.getattr disc0 regS0 ⟨chars "fra", none, none⟩ (chars "alpha2") =
      (alpha2Converter T0).convert (chars "fra") none none ∧
    Language.getattr disc0 regS0 ⟨chars "fra", none, none⟩ (chars "zzz") =
      .error (.attributeError (chars "zzz")) :=
  ⟨(c9_getattr_delegates disc0 regS0 ⟨chars "fra", none, none⟩
      (chars "alpha2")).1 (alpha2Converter T0) rfl,
   (c9_getattr_delegates disc0 regS0 ⟨chars "fra", none, none⟩
      (chars "zzz")).2 rfl rfl⟩

/-- A successful registry lookup means the name is among the bound keys. -/
theorem lookup_mem_keys (s : RegistryState) (n : Str) (c : Converter)
    (h : lookupConverter s n = some c) : n ∈ s.converters.map Prod.fst := by
  unfold lookupConverter at h
  cases hf : s.converters.find? (fun p => p.1 = n) with
  | none => rw [hf] at h; simp at h
  | some p =>
    have hp : p.1 = n := by simpa using List.find?_some hf
    have hm := List.mem_of_find?_eq_some hf
    exact hp ▸ List.mem_map_of_mem Prod.fst hm

/-- Key-based `find?` misses a list not holding the key. -/
theorem find?_key_eq_none (l : List (Str × Converter)) (n : Str)
    (h : n ∉ l.map Prod.fst) : l.find? (fun p => p.1 = n) = none :=
  List.find?_eq_none.2 (fun p hp => by
    simp only [decide_eq_true_eq]
    intro he
    exact h (he ▸ List.mem_map_of_mem Prod.fst hp))

/-- Key-based `find?` hits a freshly appended binding when the key was
unbound. -/
theorem find?_key_append_self (l : List (Str × Converter)) (name : Str)
    (conv : Converter) (h : name ∉ l.map Prod.fst) :
    (l ++ [(name, conv)]).find? (fun p => p.1 = name) = some (name, conv) := by
  rw [List.find?_append, find?_key_eq_none l name h]
  simp

/-- Key-based `find?` is unchanged by appending bindings behind a hit. -/
theorem find?_key_append_of_some (l l2 : List (Str × Converter)) (n : Str)
    (x : Str × Converter) (h : l.find? (fun p => p.1 = n) = some x) :
    (l ++ l2).find? (fun p => p.1 = n) = some x := by
  rw [List.find?_append, h]
  rfl

/-- Key-based `find?` for one key is unchanged by filtering out another
key's bindings. -/
theorem find?_key_filter_ne (l : List (Str × Converter)) (name n : Str)
    (h : n ≠ name) :
    (l.filter (fun p => ¬(p.1 = name))).find? (fun p => p.1 = n) =
      l.find? (fun p => p.1 = n) := by
  induction l with
  | nil => rfl
  | cons p t ih =>
    by_cases hp : p.1 = name
    · rw [List.filter_cons_of_neg (by simp [hp]),
          List.find?_cons_of_neg _ (by simp [hp]; exact fun he => h he.symm),
          ih]
    · rw [List.filter_cons_of_pos (by simp [hp])]
      by_cases hpn : p.1 = n
      · rw [List.find?_cons_of_pos _ (by simp [hpn]),
            List.find?_cons_of_pos _ (by simp [hpn])]
      · rw [List.find?_cons_of_neg _ (by simp [hpn]),
            List.find?_cons_of_neg _ (by simp [hpn]), ih]

/-- Reverse capability of a bound name persists when bindings are appended
behind it (the attached-constructor set is irrelevant to it). -/
theorem reverseCapableAt_append (s : RegistryState)
    (l2 : List (Str × Converter)) (A : List Str) (n : Str)
    (h : reverseCapableAt s n = true) :
    reverseCapableAt ⟨s.converters ++ l2, A⟩ n = true := by
  unfold reverseCapableAt lookupConverter at h ⊢
  cases hf : s.converters.find? (fun p => p.1 = n) with
  | none => rw [hf] at h; simp at h
  | some p =>
    rw [hf] at h
    rw [find?_key_append_of_some _ _ _ _ hf]
    exact h

/-- C2: starting from a consistent registry/class state, registering a
converter adds the `from` ++ name constructor exactly when the converter is
reverse-capable and re-establishes that the set of constructors on
`Language` equals the reverse-capable registry contents; unregistering
removes the constructor, re-establishing the same correspondence. -/
theorem c2_dynamic_constructors (s : RegistryState) (hinv : s.invariant)
    (name : Str) (conv : Converter) :
    (∀ s', register_language_converter s name conv = .ok s' →
      s'.invariant ∧ (name ∈ s'.fromAttrs ↔ conv.reverse.isSome = true)) ∧
    (∀ s', unregister_language_converter s name = .ok s' →
      s'.invariant ∧ name ∉ s'.fromAttrs) := by
  obtain ⟨hknd, hand, hcap, hbound⟩ := hinv
  constructor
  · intro s' hreg
    by_cases hmem : name ∈ s.converters.map Prod.fst
    · simp [register_language_converter, hmem] at hreg
    · simp only [register_language_converter, if_neg hmem,
        Except.ok.injEq] at hreg
      subst hreg
      have hnameattr : name ∉ s.fromAttrs := by
        intro hna
        have hc := hcap name hna
        unfold reverseCapableAt at hc
        cases hlk : lookupConverter s name with
        | none => rw [hlk] at hc; simp at hc
        | some c0 => exact hmem (lookup_mem_keys s name c0 hlk)
      have hkeys' : ((s.converters ++ [(name, conv)]).map Prod.fst).Nodup := by
        rw [List.map_append, List.nodup_append]
        refine ⟨hknd, List.nodup_singleton _, ?_⟩
        intro a ha hb
        simp only [List.map_cons, List.map_nil, List.mem_singleton] at hb
        subst hb
        exact hmem ha
      have hcapself : ∀ A : List Str,
          reverseCapableAt ⟨s.converters ++ [(name, conv)], A⟩ name =
            conv.reverse.isSome := by
        intro A
        unfold reverseCapableAt lookupConverter
        rw [find?_key_append_self s.converters name conv hmem]
        rfl
      by_cases hcv : conv.reverse.isSome = true
      · simp only [if_pos hcv]
        refine ⟨⟨hkeys', List.nodup_cons.2 ⟨hnameattr, hand⟩, ?_, ?_⟩, ?_⟩
        · intro n hn
          rcases List.mem_cons.1 hn with rfl | hn'
          · rw [hcapself]; exact hcv
          · exact reverseCapableAt_append s [(name, conv)] _ n (hcap n hn')
        · intro p hp hrev
          rcases List.mem_append.1 hp with hold | hnew
          · exact List.mem_cons_of_mem _ (hbound p hold hrev)
          · simp only [List.mem_singleton] at hnew
            subst hnew
            exact List.mem_cons_self _ _
        · simp [hcv]
      · simp only [if_neg hcv]
        refine ⟨⟨hkeys', hand, ?_, ?_⟩, ?_⟩
        · intro n hn
          exact reverseCapableAt_append s [(name, conv)] _ n (hcap n hn)
        · intro p hp hrev
          rcases List.mem_append.1 hp with hold | hnew
          · exact hbound p hold hrev
          · simp only [List.mem_singleton] at hnew
            subst hnew
            exact absurd hrev hcv
        · exact iff_of_false hnameattr hcv
  · intro s' hunreg
    unfold unregister_language_converter at hunreg
    cases hlk : lookupConverter s name with
    | none => rw [hlk] at hunreg; simp at hunreg
    | some conv0 =>
      rw [hlk] at hunreg
      simp only [Except.ok.injEq] at hunreg
      subst hunreg
      have hkeys' :
          ((s.converters.filter (fun p => ¬(p.1 = name))).map Prod.fst).Nodup :=
        ((List.filter_sublist _).map Prod.fst).nodup hknd
      by_cases hcv0 : conv0.reverse.isSome = true
      · simp only [if_pos hcv0]
        refine ⟨⟨hkeys', hand.erase _, ?_, ?_⟩, hand.not_mem_erase⟩
        · intro n hn
          have hnat : n ∈ s.fromAttrs := List.mem_of_mem_erase hn
          have hne : n ≠ name := by
            intro he; subst he; exact hand.not_mem_erase hn
          have hc := hcap n hnat
          unfold reverseCapableAt lookupConverter at hc ⊢
          rw [find?_key_filter_ne s.converters name n hne]
          exact hc
        · intro p hp hrev
          have hpne : ¬(p.1 = name) := by
            have := List.of_mem_filter hp
            simpa using this
          exact (List.mem_erase_of_ne hpne).2
            (hbound p (List.mem_of_mem_filter hp) hrev)
      · simp only [if_neg hcv0]
        have hnna : name ∉ s.fromAttrs := by
          intro hna
          have hc := hcap name hna
          unfold reverseCapableAt at hc
          rw [hlk] at hc
          exact hcv0 hc
        refine ⟨⟨hkeys', hand, ?_, ?_⟩, hnna⟩
        · intro n hn
          have hne : n ≠ name := fun he => hnna (he ▸ hn)
          have hc := hcap n hn
          unfold reverseCapableAt lookupConverter at hc ⊢
          rw [find?_key_filter_ne s.converters name n hne]
          exact hc
        · intro p hp hrev
          exact hbound p (List.mem_of_mem_filter hp) hrev

/-- Witness for C2: registering a reverse-capable converter named test in
the empty registry yields a consistent state with the fromtest constructor
present. -/
theorem c2_dynamic_constructors_witness :
    (⟨[(chars "test", alpha2Converter T0)], [chars "test"]⟩ :
        RegistryState).invariant ∧
    (chars "test" ∈ [chars "test"] ↔
      (alpha2Converter T0).reverse.isSome = true) :=
  (c2_dynamic_constructors ⟨[], []⟩ (by decide) (chars "test")
      (alpha2Converter T0)).1
    ⟨[(chars "test", alpha2Converter T0)], [chars "test"]⟩ rfl

/-- C10: `fromietf` lowercases the language subtag before resolving it, so
case variants of the language subtag parse identically; country and script
subtags are uppercased resp. capitalized before table lookup, so the
subtag loop treats case variants of a country or script subtag
identically; concretely FR-Latn and fr-Latn parse to the same value. -/
theorem c10_case_insensitive (T : Tables) :
    (∀ l1 l2 rest, '-' ∉ l1 → '-' ∉ l2 → pyLower l1 = pyLower l2 →
      Language.fromietf T (joinDash (l1 :: rest)) =
        Language.fromietf T (joinDash (l2 :: rest))) ∧
    (∀ L c1 c2 rest, c1.length = 2 → c2.length = 2 →
      pyUpper c1 = pyUpper c2 →
      ietfLoop T L (c1 :: rest) = ietfLoop T L (c2 :: rest)) ∧
    (∀ L s1 s2 rest, s1.length ≠ 2 → s2.length ≠ 2 →
      pyCapitalize s1 = pyCapitalize s2 →
      ietfLoop T L (s1 :: rest) = ietfLoop T L (s2 :: rest)) ∧
    Language.fromietf T0 (chars "FR-Latn") =
      Language.fromietf T0 (chars "fr-Latn") := by
  refine ⟨?_, ?_, ?_, by rfl⟩
  · intro l1 l2 rest h1 h2 hlow
    cases rest with
    | nil =>
      simp [Language.fromietf, joinDash, splitOnDash_no_dash l1 h1,
            splitOnDash_no_dash l2 h2, hlow]
    | cons r rs =>
      have e1 : splitOnDash (joinDash (l1 :: r :: rs)) =
          l1 :: splitOnDash (joinDash (r :: rs)) := by
        rw [show joinDash (l1 :: r :: rs) = l1 ++ '-' :: joinDash (r :: rs)
              from by rw [joinDash]; exact List.cons_ne_nil r rs]
        exact splitOnDash_append _ _ h1
      have e2 : splitOnDash (joinDash (l2 :: r :: rs)) =
          l2 :: splitOnDash (joinDash (r :: rs)) := by
        rw [show joinDash (l2 :: r :: rs) = l2 ++ '-' :: joinDash (r :: rs)
              from by rw [joinDash]; exact List.cons_ne_nil r rs]
        exact splitOnDash_append _ _ h2
      simp [Language.fromietf, e1, e2, hlow]
  · intro L c1 c2 rest h1 h2 hup
    simp only [ietfLoop]
    rw [if_pos h1, if_pos h2, hup]
  · intro L s1 s2 rest h1 h2 hcapeq
    simp only [ietfLoop]
    rw [if_neg h1, if_neg h2, hcapeq]

/-- Witness for C10 at the tags FR-Latn and fr-Latn. -/
theorem c10_case_insensitive_witness :
    Language.fromietf T0 (joinDash [chars "FR", chars "Latn"]) =
      Language.fromietf T0 (joinDash [chars "fr", chars "Latn"]) :=
  (c10_case_insensitive T0).1 (chars "FR") (chars "fr") [chars "Latn"]
    (by decide) (by decide) (by decide)

end Babelfish
